import Mathlib

/-!
A shallow embedding of the `fw_env` crate (src/lib.rs): a reader for the
U-Boot-style firmware environment store.  Rust machine integers are
modelled as `Nat` (bytes are `Nat` values assumed `< 256` where it
matters, `usize` is 64 bits wide), fallible code returns `Except` and
possible panics are modelled by the `RResult.panicked` outcome.  File
input is modelled as a map from a device name to the optional byte
content of that device (`none` models an open failure); text content is
modelled as `List Char`, assumed free of carriage returns, for which
Rust's `lines()` agrees with splitting on newline once empty lines are
filtered out.
-/

set_option maxRecDepth 16384

namespace Fw

/-- The error enum `FwError` of src/lib.rs.  Payloads irrelevant to the
claims (io error values, parse-int details, scan details) are dropped;
`EnvVarSyntax` keeps the offending raw segment bytes. -/
inductive FwError where
  | Io
  | ParseInt
  | ParseDevname
  | ParseStart
  | ParseSize
  | WrongDevNum (n : Nat)
  | BadCrc
  | EnvVarSyntax (s : List Nat)
  | Scan
deriving DecidableEq, Repr

/-- Result of a Rust computation that may also panic (index or slice out
of bounds).  `panicked` is not an `FwError`: a Rust panic aborts instead
of returning `Err`. -/
inductive RResult (α : Type) where
  | ok (val : α)
  | err (e : FwError)
  | panicked
deriving DecidableEq, Repr

/-- `ConfigLine` of src/lib.rs: one layout descriptor. `usize` fields
become `Nat` (values are checked against the 64-bit bound at parse
time). -/
structure ConfigLine where
  devname : List Char
  start : Nat
  size : Nat
deriving DecidableEq, Repr

/-- `Config` of src/lib.rs: one or two layout descriptors. -/
structure Config where
  line1 : ConfigLine
  line2 : Option ConfigLine
deriving DecidableEq, Repr

/-- `usize::MAX + 1` on the 64-bit targets this crate is built for. -/
def USIZE_BOUND : Nat := 18446744073709551616

instance {ε α : Type} [DecidableEq ε] [DecidableEq α] :
    DecidableEq (Except ε α) := fun a b =>
  match a, b with
  | .error e, .error f =>
    if h : e = f then isTrue (by rw [h])
    else isFalse (fun hh => h (by injection hh))
  | .error _, .ok _ => isFalse (fun hh => Except.noConfusion hh)
  | .ok _, .error _ => isFalse (fun hh => Except.noConfusion hh)
  | .ok x, .ok y =>
    if h : x = y then isTrue (by rw [h])
    else isFalse (fun hh => h (by injection hh))

/-- Hex digits accepted by the `{x}` capture of `scan_fmt` and by
`usize::from_str_radix(_, 16)`. -/
def isHexDigitChar (c : Char) : Bool :=
  c.isDigit || ('a' ≤ c && c ≤ 'f') || ('A' ≤ c && c ≤ 'F')

/-- Numeric value of one hex digit. -/
def hexDigitVal (c : Char) : Nat :=
  if c.isDigit then c.toNat - 48
  else if 'a' ≤ c && c ≤ 'f' then c.toNat - 87
  else c.toNat - 55

/-- Base-16 value of a digit string, most significant digit first. -/
def hexVal (ds : List Char) : Nat :=
  ds.foldl (fun a c => 16 * a + hexDigitVal c) 0

/-- `usize::from_str_radix(ds, 16)`: fails on an empty string, on a
non-hex digit, and on overflow past `usize::MAX`; never wraps or
truncates. -/
def from_str_radix_16 (ds : List Char) : Except FwError Nat :=
  if ds.isEmpty then .error .ParseInt
  else if ds.all isHexDigitChar then
    if hexVal ds < USIZE_BOUND then .ok (hexVal ds) else .error .ParseInt
  else .error .ParseInt

/-- Negation of `Char.isWhitespace`, the token class of the `{}` capture
of `scan_fmt` (a maximal run of non-whitespace characters). -/
def notWs (c : Char) : Bool := !c.isWhitespace

/-- `ConfigLine::from_str`: `scan_fmt!(s, "\x7b\x7d 0x\x7bx\x7d 0x\x7bx\x7d")`
followed by `usize::from_str_radix(_, 16)` on both captured digit
strings.  The scan step matches a non-empty non-whitespace device token,
whitespace, the literal `0x`, a non-empty run of hex digits, whitespace,
the literal `0x`, and a second non-empty run of hex digits; any shape
mismatch is the scan error.  Only after the shape matches are the two
digit strings converted, first the start then the size, so an overflow
surfaces as `ParseInt`, never as `Scan`. -/
def ConfigLine.from_str (s : List Char) : Except FwError ConfigLine :=
  let devname := s.takeWhile notWs
  if devname.isEmpty then .error .Scan
  else
    match (s.dropWhile notWs).dropWhile (fun c => c.isWhitespace) with
    | '0' :: 'x' :: r3 =>
      let h1 := r3.takeWhile isHexDigitChar
      if h1.isEmpty then .error .Scan
      else
        match (r3.dropWhile isHexDigitChar).dropWhile (fun c => c.isWhitespace) with
        | '0' :: 'x' :: r5 =>
          let h2 := r5.takeWhile isHexDigitChar
          if h2.isEmpty then .error .Scan
          else
            match from_str_radix_16 h1 with
            | .error e => .error e
            | .ok st =>
              match from_str_radix_16 h2 with
              | .error e => .error e
              | .ok sz => .ok ⟨devname, st, sz⟩
        | _ => .error .Scan
    | _ => .error .Scan

/-- Prepend an element to the first group of a non-empty group list
(helper for `splitSep`). -/
def consHead {α : Type} (c : α) : List (List α) → List (List α)
  | [] => [[c]]
  | s :: ss => (c :: s) :: ss

/-- Rust's `slice::split` / the line structure of a text: split a list at
every occurrence of `sep`, keeping empty groups, so that the result
always has one more group than there are separators. -/
def splitSep {α : Type} [DecidableEq α] (sep : α) : List α → List (List α)
  | [] => [[]]
  | c :: rest =>
    if c = sep then [] :: splitSep sep rest
    else consHead c (splitSep sep rest)

/-- The filter of `Config::from_file`: keep lines that are non-empty and
do not start with a `#`. -/
def lineOk : List Char → Bool
  | [] => false
  | c :: _ => c != '#'

/-- `collect::<Result<Vec<ConfigLine>, _>>()`: parse each line in order,
stopping at the first failure. -/
def parseLines : List (List Char) → Except FwError (List ConfigLine)
  | [] => .ok []
  | l :: ls =>
    match ConfigLine.from_str l with
    | .error e => .error e
    | .ok c =>
      match parseLines ls with
      | .error e => .error e
      | .ok cs => .ok (c :: cs)

/-- The qualifying lines of a config text: split on newline and filter
with `lineOk`, exactly the iterator pipeline of `Config::from_file`
before its `take(2)`. -/
def qualifyingLines (content : List Char) : List (List Char) :=
  (splitSep '\n' content).filter lineOk

/-- The body of `Config::from_file` once the file content is in hand:
filter, `take(2)`, parse, then match on the number of parsed lines.
Note the truncation to two lines happens before the count is taken. -/
def Config.fromContent (content : List Char) : Except FwError Config :=
  match parseLines ((qualifyingLines content).take 2) with
  | .error e => .error e
  | .ok [l1] => .ok ⟨l1, none⟩
  | .ok [l1, l2] => .ok ⟨l1, some l2⟩
  | .ok other => .error (.WrongDevNum other.length)

/-- `Config::from_file`: opening the file may fail (modelled by `none`),
otherwise the content is processed by `Config.fromContent`. -/
def Config.from_file (file : Option (List Char)) : Except FwError Config :=
  match file with
  | none => .error .Io
  | some content => Config.fromContent content

/-- `Config::is_redundant`. -/
def Config.is_redundant (c : Config) : Bool := c.line2.isSome

/-- The reflected CRC-32/ISO-HDLC polynomial `0xEDB88320`. -/
def CRC_POLY : Nat := 3988292384

/-- One bit step of the reflected CRC-32 algorithm on a 32-bit state. -/
def bitstep (r : Nat) : Nat :=
  if r % 2 = 1 then (r / 2) ^^^ CRC_POLY else r / 2

/-- One byte step: xor the byte into the low bits of the state and run
eight bit steps. -/
def bytestep (r b : Nat) : Nat := bitstep^[8] (r ^^^ b)

/-- Run the CRC state machine over a byte list from a given state. -/
def crcRun (r : Nat) (data : List Nat) : Nat := data.foldl bytestep r

/-- `crc::Crc::<u32>::new(&crc::CRC_32_ISO_HDLC)` digest of a byte list:
init `0xFFFFFFFF`, reflected, final xor `0xFFFFFFFF`. -/
def crc32 (data : List Nat) : Nat := crcRun 4294967295 data ^^^ 4294967295

/-- The environment store `FwEnv` of src/lib.rs. -/
structure FwEnv where
  vars : List (List Nat × List Nat)
deriving DecidableEq, Repr

/-- `ENV_SIMPLE_SIZE`: size of a `u32`. -/
def ENV_SIMPLE_SIZE : Nat := 4

/-- `ENV_REDUNDANT_SIZE`: size of a `u32` plus one flag byte. -/
def ENV_REDUNDANT_SIZE : Nat := 5

/-- The file system seen by `FwEnv`: byte content per device name,
`none` modelling a failure to open. -/
def FS : Type := List Char → Option (List Nat)

/-- `FwEnv::read_block`: open the device, seek to `offset`, `read_exact`
`size` bytes.  A missing device or a short read is an io error; a seek
past the end succeeds but the following exact read then fails. -/
def FwEnv.read_block (fs : FS) (path : List Char) (offset size : Nat) :
    RResult (List Nat) :=
  match fs path with
  | none => .err .Io
  | some data =>
    if offset + size ≤ data.length then .ok ((data.drop offset).take size)
    else .err .Io

/-- The reference checksum of a block: the first four bytes assembled
little-endian, as the `transmute` of `[block[0], block[1], block[2],
block[3]]` does on the little-endian targets this crate runs on.  Only
used on blocks of length at least 4. -/
def refcrc4 (b : List Nat) : Nat :=
  b.getD 0 0 + 256 * b.getD 1 0 + 65536 * b.getD 2 0 + 16777216 * b.getD 3 0

/-- Decode one payload segment: the key is everything before the first
`=` byte (61), the value everything after it; a segment with no `=` is
the `EnvVarSyntax` error carrying the raw segment. -/
def splitKV (s : List Nat) : Except FwError (List Nat × List Nat) :=
  match s.findIdx? (fun c => c == 61) with
  | none => .error (.EnvVarSyntax s)
  | some pos => .ok (s.take pos, s.drop (pos + 1))

/-- The decoding loop of `FwEnv::read`: decode the segments in order,
aborting at the first malformed one. -/
def decodeSegs : List (List Nat) → Except FwError (List (List Nat × List Nat))
  | [] => .ok []
  | s :: rest =>
    match splitKV s with
    | .error e => .error e
    | .ok kv =>
      match decodeSegs rest with
      | .error e => .error e
      | .ok kvs => .ok (kv :: kvs)

/-- The segments of a payload that `FwEnv::read` iterates over: split on
null bytes, then take while non-empty. -/
def segsOf (payload : List Nat) : List (List Nat) :=
  (splitSep 0 payload).takeWhile (fun s => !s.isEmpty)

/-- Splitting plus decoding of a whole payload. -/
def decodeVars (payload : List Nat) :
    Except FwError (List (List Nat × List Nat)) :=
  decodeSegs (segsOf payload)

/-- The body of `FwEnv::read` after the block has been read: index bytes
0..3 for the reference checksum (a panic if the block is shorter than
4), slice off the header (a panic if the block is shorter than the
header), check the CRC of the remainder against the reference, and
decode. -/
def FwEnv.readFrom (block : List Nat) (redundant : Bool) : RResult FwEnv :=
  if block.length < 4 then .panicked
  else if block.length < (if redundant then ENV_REDUNDANT_SIZE else ENV_SIMPLE_SIZE)
    then .panicked
  else if crc32 (block.drop (if redundant then ENV_REDUNDANT_SIZE else ENV_SIMPLE_SIZE))
      = refcrc4 block then
    match decodeVars (block.drop
        (if redundant then ENV_REDUNDANT_SIZE else ENV_SIMPLE_SIZE)) with
    | .error e => .err e
    | .ok vs => .ok ⟨vs⟩
  else .err .BadCrc

/-- `FwEnv::read`: read the primary region's block, then validate and
decode it. -/
def FwEnv.read (config : Config) (fs : FS) : RResult FwEnv :=
  match FwEnv.read_block fs config.line1.devname config.line1.start
      config.line1.size with
  | .err e => .err e
  | .panicked => .panicked
  | .ok block => FwEnv.readFrom block config.is_redundant

/-- `FwEnv::find_var`: the first entry whose key equals `name`
byte-for-byte, if any. -/
def FwEnv.find_var (env : FwEnv) (name : List Nat) : Option (List Nat) :=
  (env.vars.find? (fun kv => kv.1 == name)).map (fun kv => kv.2)

/-- The four little-endian bytes of a 32-bit value. -/
def le4 (c : Nat) : List Nat :=
  [c % 256, c / 256 % 256, c / 65536 % 256, c / 16777216 % 256]

/-- A well-formed non-redundant block for payload `p`: the little-endian
CRC of `p` followed by `p`. -/
def mkBlock (p : List Nat) : List Nat := le4 (crc32 p) ++ p

/-- The device name used by the concrete block fixtures. -/
def devD : List Char := ['d']

/-- A non-redundant config whose primary region is exactly the
well-formed block for `p` at offset 0. -/
def mkCfg (p : List Nat) : Config := ⟨⟨devD, 0, (mkBlock p).length⟩, none⟩

/-- A file system holding the well-formed block for `p` on device `d`. -/
def mkFs (p : List Nat) : FS :=
  fun path => if path = devD then some (mkBlock p) else none

/-- `p` with bit `k` of byte `i` flipped. -/
def flipAt (p : List Nat) (i k : Nat) : List Nat :=
  p.set i (p.getD i 0 ^^^ 2 ^ k)

/-- The well-formed block for `p` with one payload bit flipped; its
stored checksum still is the CRC of the unflipped `p`. -/
def mkBlockFlip (p : List Nat) (i k : Nat) : List Nat :=
  le4 (crc32 p) ++ flipAt p i k

/-- A file system holding the bit-flipped block on device `d`. -/
def mkFsFlip (p : List Nat) (i k : Nat) : FS :=
  fun path => if path = devD then some (mkBlockFlip p i k) else none

/-- Lift the result of payload decoding to the result of `FwEnv::read`. -/
def rlift : Except FwError (List (List Nat × List Nat)) → RResult FwEnv
  | .error e => .err e
  | .ok vs => .ok ⟨vs⟩

/-- Encode a list of segments as a payload prefix, each segment followed
by its null terminator. -/
def joinNul : List (List Nat) → List Nat
  | [] => []
  | s :: rest => s ++ 0 :: joinNul rest

/-- A descriptor line of the documented grammar: a device token, the
literal ` 0x`, hex digits, the literal ` 0x`, hex digits. -/
def descLine (d ha hb : List Char) : List Char :=
  d ++ ' ' :: '0' :: 'x' :: (ha ++ ' ' :: '0' :: 'x' :: hb)

/-! ## CRC-32 state machine lemmas

The bit step is GF(2)-linear, injective on 32-bit states, and maps
nonzero 32-bit states to nonzero states; hence flipping one payload bit
always changes the final CRC. -/

theorem xor_xor_cancel (x y c : Nat) : (x ^^^ c) ^^^ (y ^^^ c) = x ^^^ y := by
  rw [Nat.xor_assoc, Nat.xor_comm y c, Nat.xor_cancel_left]

theorem bitstep_xor (a b : Nat) : bitstep (a ^^^ b) = bitstep a ^^^ bitstep b := by
  have hx : (a ^^^ b) % 2 = (a + b) % 2 := Nat.xor_mod_two_eq
  have hd : (a ^^^ b) / 2 = a / 2 ^^^ b / 2 := Nat.xor_div_two
  unfold bitstep
  rcases Nat.mod_two_eq_zero_or_one a with ha | ha <;>
      rcases Nat.mod_two_eq_zero_or_one b with hb | hb
  · rw [if_neg (by omega), if_neg (by omega), if_neg (by omega), hd]
  · rw [if_pos (by omega), if_neg (by omega), if_pos hb, hd, Nat.xor_assoc]
  · rw [if_pos (by omega), if_pos ha, if_neg (by omega), hd, Nat.xor_assoc,
      Nat.xor_assoc, Nat.xor_comm (b / 2) CRC_POLY]
  · rw [if_neg (by omega), if_pos ha, if_pos hb, hd, xor_xor_cancel]

theorem bitstep_iterate_xor (n a b : Nat) :
    bitstep^[n] (a ^^^ b) = bitstep^[n] a ^^^ bitstep^[n] b := by
  induction n generalizing a b with
  | zero => simp
  | succ n ih =>
    rw [Function.iterate_succ_apply, Function.iterate_succ_apply,
      Function.iterate_succ_apply, bitstep_xor, ih]

theorem bitstep_lt (a : Nat) (h : a < 4294967296) : bitstep a < 4294967296 := by
  have h32 : (4294967296 : Nat) = 2 ^ 32 := by norm_num
  unfold bitstep
  split
  · rw [h32]
    exact Nat.xor_lt_two_pow (by omega) (by norm_num [CRC_POLY])
  · omega

theorem bitstep_eq_zero (a : Nat) (h : a < 4294967296) (hz : bitstep a = 0) :
    a = 0 := by
  unfold bitstep at hz
  split at hz
  · have hK : a / 2 = CRC_POLY := Nat.xor_eq_zero.mp hz
    have : CRC_POLY = 3988292384 := rfl
    omega
  · omega

theorem bitstep_iterate_lt (n a : Nat) (h : a < 4294967296) :
    bitstep^[n] a < 4294967296 := by
  induction n generalizing a with
  | zero => simpa
  | succ n ih =>
    rw [Function.iterate_succ_apply]
    exact ih _ (bitstep_lt a h)

theorem bitstep_iterate_ne_zero (n a : Nat) (h : a < 4294967296)
    (hz : a ≠ 0) : bitstep^[n] a ≠ 0 := by
  induction n generalizing a with
  | zero => simpa
  | succ n ih =>
    rw [Function.iterate_succ_apply]
    exact ih _ (bitstep_lt a h) (fun h0 => hz (bitstep_eq_zero a h h0))

theorem bytestep_xor (r b d : Nat) :
    bytestep (r ^^^ d) b = bytestep r b ^^^ bitstep^[8] d := by
  unfold bytestep
  rw [show (r ^^^ d) ^^^ b = (r ^^^ b) ^^^ d by
    rw [Nat.xor_assoc, Nat.xor_comm d b, ← Nat.xor_assoc]]
  exact bitstep_iterate_xor 8 _ _

theorem crcRun_xor (data : List Nat) (r d : Nat) :
    crcRun (r ^^^ d) data = crcRun r data ^^^ bitstep^[8 * data.length] d := by
  induction data generalizing r d with
  | nil => simp [crcRun]
  | cons b t ih =>
    show crcRun (bytestep (r ^^^ d) b) t = _
    rw [bytestep_xor, ih (bytestep r b) (bitstep^[8] d),
      ← Function.iterate_add_apply]
    have : 8 * t.length + 8 = 8 * (b :: t).length := by
      simp [List.length_cons]; ring
    rw [this]
    rfl

theorem crcRun_append (xs ys : List Nat) (r : Nat) :
    crcRun r (xs ++ ys) = crcRun (crcRun r xs) ys := by
  simp [crcRun, List.foldl_append]

theorem crc32_flip (xs : List Nat) (b d : Nat) (ys : List Nat) :
    crc32 (xs ++ (b ^^^ d) :: ys) =
      crc32 (xs ++ b :: ys) ^^^ bitstep^[8 * (ys.length + 1)] d := by
  unfold crc32
  rw [crcRun_append, crcRun_append]
  show (crcRun (bytestep (crcRun 4294967295 xs) (b ^^^ d)) ys) ^^^ _ = _
  rw [show bytestep (crcRun 4294967295 xs) (b ^^^ d)
      = bytestep (crcRun 4294967295 xs) b ^^^ bitstep^[8] d by
    unfold bytestep
    rw [show crcRun 4294967295 xs ^^^ (b ^^^ d)
        = (crcRun 4294967295 xs ^^^ b) ^^^ d by
      rw [Nat.xor_assoc]]
    exact bitstep_iterate_xor 8 _ _]
  rw [crcRun_xor, ← Function.iterate_add_apply]
  have h8 : 8 * ys.length + 8 = 8 * (ys.length + 1) := by ring
  rw [h8, Nat.xor_assoc, Nat.xor_comm (bitstep^[8 * (ys.length + 1)] d),
    ← Nat.xor_assoc]
  rfl

theorem crcRun_lt (data : List Nat) (r : Nat) (hr : r < 4294967296)
    (h : ∀ b ∈ data, b < 4294967296) : crcRun r data < 4294967296 := by
  induction data generalizing r with
  | nil => simpa [crcRun]
  | cons b t ih =>
    show crcRun (bytestep r b) t < 4294967296
    refine ih _ ?_ (fun x hx => h x (List.mem_cons_of_mem b hx))
    unfold bytestep
    refine bitstep_iterate_lt 8 _ ?_
    have h32 : (4294967296 : Nat) = 2 ^ 32 := by norm_num
    rw [h32]
    exact Nat.xor_lt_two_pow (by omega) (by
      have := h b (List.mem_cons_self b t); omega)

theorem crc32_lt (data : List Nat) (h : ∀ b ∈ data, b < 4294967296) :
    crc32 data < 4294967296 := by
  unfold crc32
  have h32 : (4294967296 : Nat) = 2 ^ 32 := by norm_num
  rw [h32]
  exact Nat.xor_lt_two_pow (h32 ▸ crcRun_lt data _ (by norm_num) h) (by norm_num)

/-- Flipping bit `k` (of a byte, `k < 8`) of byte `i` of a payload always
changes its CRC-32. -/
theorem crc32_flipAt_ne (p : List Nat) (i k : Nat) (hi : i < p.length)
    (hk : k < 8) : crc32 (flipAt p i k) ≠ crc32 p := by
  have hdec : p = p.take i ++ p[i] :: p.drop (i + 1) := by
    conv_lhs => rw [← List.take_append_drop i p]
    rw [List.drop_eq_getElem_cons hi]
  have hset : flipAt p i k = p.take i ++ (p[i] ^^^ 2 ^ k) :: p.drop (i + 1) := by
    unfold flipAt
    rw [List.getD_eq_getElem p 0 hi, List.set_eq_take_append_cons_drop,
      if_pos hi]
  have hflip := crc32_flip (p.take i) (p[i]) (2 ^ k) (p.drop (i + 1))
  rw [← hset, ← hdec] at hflip
  rw [hflip]
  intro hcontra
  have hD : bitstep^[8 * ((p.drop (i + 1)).length + 1)] (2 ^ k) = 0 :=
    Nat.xor_right_injective (hcontra.trans (Nat.xor_zero _).symm)
  have h2k : (2 : Nat) ^ k < 4294967296 := by
    calc (2 : Nat) ^ k ≤ 2 ^ 8 := Nat.pow_le_pow_right (by norm_num) (by omega)
    _ < 4294967296 := by norm_num
  exact bitstep_iterate_ne_zero _ _ h2k (by positivity) hD

/-! ## Split and decode lemmas -/

theorem splitSep_ne_nil {α : Type} [DecidableEq α] (sep : α) (l : List α) :
    splitSep sep l ≠ [] := by
  cases l with
  | nil => simp [splitSep]
  | cons c t =>
    unfold splitSep
    split
    · simp
    · cases h : splitSep sep t <;> simp [consHead]

theorem mem_splitSep_not_sep {α : Type} [DecidableEq α] (sep : α)
    (l : List α) : ∀ s ∈ splitSep sep l, sep ∉ s := by
  induction l with
  | nil =>
    intro s hs
    simp [splitSep] at hs
    simp [hs]
  | cons c t ih =>
    intro s hs
    unfold splitSep at hs
    by_cases hc : c = sep
    · rw [if_pos hc] at hs
      rcases List.mem_cons.mp hs with h | h
      · simp [h]
      · exact ih s h
    · rw [if_neg hc] at hs
      cases hsp : splitSep sep t with
      | nil => exact absurd hsp (splitSep_ne_nil sep t)
      | cons s0 ss =>
        rw [hsp] at hs
        rcases List.mem_cons.mp hs with h | h
        · subst h
          intro hmem
          rcases List.mem_cons.mp hmem with h | h
          · exact hc h.symm
          · exact ih s0 (hsp ▸ List.mem_cons_self s0 ss) h
        · exact ih s (hsp ▸ List.mem_cons_of_mem s0 h)

theorem splitSep_append_cons {α : Type} [DecidableEq α] (sep : α)
    (xs : List α) (hxs : sep ∉ xs) (ys : List α) :
    splitSep sep (xs ++ sep :: ys) = xs :: splitSep sep ys := by
  induction xs with
  | nil => simp [splitSep]
  | cons c t ih =>
    have hc : c ≠ sep := fun h => hxs (h ▸ List.mem_cons_self c t)
    have ht : sep ∉ t := fun h => hxs (List.mem_cons_of_mem c h)
    show splitSep sep (c :: (t ++ sep :: ys)) = _
    rw [splitSep, if_neg hc, ih ht]
    rfl

theorem splitSep_no_sep {α : Type} [DecidableEq α] (sep : α)
    (l : List α) (hl : sep ∉ l) : splitSep sep l = [l] := by
  induction l with
  | nil => rfl
  | cons c t ih =>
    have hc : c ≠ sep := fun h => hl (h ▸ List.mem_cons_self c t)
    have ht : sep ∉ t := fun h => hl (List.mem_cons_of_mem c h)
    unfold splitSep
    rw [if_neg hc, ih ht]
    rfl

theorem splitSep_joinNul (L : List (List Nat))
    (hL : ∀ s ∈ L, (0 : Nat) ∉ s) (r : List Nat) :
    splitSep 0 (joinNul L ++ r) = L ++ splitSep 0 r := by
  induction L with
  | nil => simp [joinNul]
  | cons s t ih =>
    have hs : (0 : Nat) ∉ s := hL s (List.mem_cons_self s t)
    have ht : ∀ u ∈ t, (0 : Nat) ∉ u := fun u hu => hL u (List.mem_cons_of_mem s hu)
    show splitSep 0 ((s ++ 0 :: joinNul t) ++ r) = _
    rw [List.append_assoc, List.cons_append, splitSep_append_cons 0 s hs,
      ih ht]
    rfl

theorem takeWhile_nonempty_append (L : List (List Nat))
    (hL : ∀ s ∈ L, s ≠ []) (w : List (List Nat)) :
    (L ++ [] :: w).takeWhile (fun s => !s.isEmpty) = L := by
  induction L with
  | nil => simp [List.takeWhile]
  | cons s t ih =>
    have hs : s ≠ [] := hL s (List.mem_cons_self s t)
    have ht : ∀ u ∈ t, u ≠ [] := fun u hu => hL u (List.mem_cons_of_mem s hu)
    show ((s :: (t ++ [] :: w)).takeWhile fun s => !s.isEmpty) = _
    rw [List.takeWhile_cons_of_pos (by simpa using hs), ih ht]

theorem takeWhile_all_segs (L : List (List Nat)) (hL : ∀ s ∈ L, s ≠ []) :
    L.takeWhile (fun s => !s.isEmpty) = L := by
  induction L with
  | nil => rfl
  | cons s t ih =>
    have hs : s ≠ [] := hL s (List.mem_cons_self s t)
    have ht : ∀ u ∈ t, u ≠ [] := fun u hu => hL u (List.mem_cons_of_mem s hu)
    rw [List.takeWhile_cons_of_pos (by simpa using hs), ih ht]

theorem segsOf_joinNul_term (L : List (List Nat))
    (hL : ∀ s ∈ L, s ≠ [] ∧ (0 : Nat) ∉ s) (z : List Nat) :
    segsOf (joinNul L ++ 0 :: z) = L := by
  unfold segsOf
  rw [splitSep_joinNul L (fun s hs => (hL s hs).2) (0 :: z)]
  have h0 : splitSep (0 : Nat) (0 :: z) = [] :: splitSep 0 z := by
    rw [splitSep, if_pos rfl]
  rw [h0]
  exact takeWhile_nonempty_append L (fun s hs => (hL s hs).1) _

/-! ## Record decoding lemmas -/

theorem findIdx_first (p : Nat → Bool) (s : List Nat) (i : Nat)
    (hi : i < s.length) (hp : p (s.getD i 0) = true)
    (hbefore : ∀ j, j < i → p (s.getD j 0) = false) :
    s.findIdx? p = some i := by
  induction s generalizing i with
  | nil => simp at hi
  | cons a t ih =>
    cases i with
    | zero =>
      rw [List.findIdx?_cons, if_pos (by simpa using hp)]
    | succ i' =>
      have ha : p a = false := by simpa using hbefore 0 (Nat.succ_pos i')
      rw [List.findIdx?_cons, if_neg (by simp [ha]), List.findIdx?_succ]
      have hrec : t.findIdx? p = some i' := by
        refine ih i' (by simpa using hi) (by simpa using hp) ?_
        intro j hj
        simpa using hbefore (j + 1) (by omega)
      rw [hrec]
      rfl

theorem splitKV_first (s : List Nat) (i : Nat) (hi : i < s.length)
    (hget : s.getD i 0 = 61) (hbefore : ∀ j, j < i → s.getD j 0 ≠ 61) :
    splitKV s = .ok (s.take i, s.drop (i + 1)) := by
  unfold splitKV
  rw [findIdx_first (fun c => c == 61) s i hi (by rw [hget]; rfl)
    (fun j hj => by
      rw [beq_eq_false_iff_ne]
      exact hbefore j hj)]

theorem splitKV_ok_decomp (s k v : List Nat)
    (h : splitKV s = .ok (k, v)) : s = k ++ 61 :: v ∧ (61 : Nat) ∉ k := by
  induction s generalizing k v with
  | nil => simp [splitKV] at h
  | cons a t ih =>
    unfold splitKV at h
    rw [List.findIdx?_cons] at h
    by_cases ha : a = 61
    · rw [if_pos (by simp [ha])] at h
      injection h with h'
      injection h' with hk hv
      subst ha
      constructor
      · rw [← hk, ← hv]
        rfl
      · rw [← hk]
        intro hmem
        simp [List.take_zero] at hmem
    · rw [if_neg (by simp [ha]), List.findIdx?_succ] at h
      cases hf : t.findIdx? (fun c => c == 61) with
      | none =>
        rw [hf] at h
        exact Except.noConfusion h
      | some m =>
        rw [hf] at h
        injection h with h'
        injection h' with hk hv
        have hrec : splitKV t = .ok (t.take m, t.drop (m + 1)) := by
          unfold splitKV
          rw [hf]
        obtain ⟨hdec, hnot⟩ := ih (t.take m) (t.drop (m + 1)) hrec
        constructor
        · rw [← hk, ← hv]
          show a :: t = (a :: t.take m) ++ 61 :: t.drop (m + 1)
          simp only [List.cons_append, List.cons.injEq, true_and]
          exact hdec
        · rw [← hk]
          intro hmem
          have hmem' : (61 : Nat) ∈ a :: t.take m := hmem
          rcases List.mem_cons.mp hmem' with hh | hh
          · exact ha hh.symm
          · exact hnot hh

theorem splitKV_err (s : List Nat) (e : FwError)
    (h : splitKV s = .error e) : e = .EnvVarSyntax s ∧ ∀ b ∈ s, b ≠ 61 := by
  unfold splitKV at h
  cases hf : s.findIdx? (fun c => c == 61) with
  | none =>
    rw [hf] at h
    refine ⟨by injection h with h'; exact h'.symm, ?_⟩
    intro b hb
    have := List.findIdx?_eq_none_iff.mp hf b hb
    simpa using this
  | some pos => rw [hf] at h; simp at h

theorem splitKV_ok_of_mem (s : List Nat) (h : (61 : Nat) ∈ s) :
    ∃ kv, splitKV s = .ok kv := by
  unfold splitKV
  cases hf : s.findIdx? (fun c => c == 61) with
  | none =>
    have := List.findIdx?_eq_none_iff.mp hf 61 h
    simp at this
  | some pos => exact ⟨_, rfl⟩

theorem decodeSegs_err_shape (segs : List (List Nat)) (e : FwError)
    (h : decodeSegs segs = .error e) :
    ∃ t, e = .EnvVarSyntax t ∧ ∀ b ∈ t, b ≠ 61 := by
  induction segs generalizing e with
  | nil => simp [decodeSegs] at h
  | cons s rest ih =>
    unfold decodeSegs at h
    cases hkv : splitKV s with
    | error e' =>
      rw [hkv] at h
      injection h with h'
      obtain ⟨he, hs⟩ := splitKV_err s e' hkv
      exact ⟨s, by rw [← h', he], hs⟩
    | ok kv =>
      rw [hkv] at h
      cases hrest : decodeSegs rest with
      | error e' =>
        rw [hrest] at h
        injection h with h'
        exact h' ▸ ih e' hrest
      | ok kvs => rw [hrest] at h; simp at h

theorem decodeSegs_err_of_bad (segs : List (List Nat))
    (h : ∃ s ∈ segs, ∀ b ∈ s, b ≠ 61) :
    ∃ t, decodeSegs segs = .error (.EnvVarSyntax t) ∧ ∀ b ∈ t, b ≠ 61 := by
  induction segs with
  | nil =>
    obtain ⟨s, hs, _⟩ := h
    simp at hs
  | cons s rest ih =>
    cases hkv : splitKV s with
    | error e =>
      obtain ⟨he, hs61⟩ := splitKV_err s e hkv
      refine ⟨s, ?_, hs61⟩
      unfold decodeSegs
      rw [hkv, he]
    | ok kv =>
      obtain ⟨s0, hs0mem, hs0⟩ := h
      rcases List.mem_cons.mp hs0mem with rfl | hmem
      · exfalso
        have hnone : s0.findIdx? (fun c => c == 61) = none := by
          rw [List.findIdx?_eq_none_iff]
          intro x hx
          simpa using hs0 x hx
        unfold splitKV at hkv
        rw [hnone] at hkv
        simp at hkv
      · obtain ⟨t, hrest, ht⟩ := ih ⟨s0, hmem, hs0⟩
        refine ⟨t, ?_, ht⟩
        unfold decodeSegs
        rw [hkv, hrest]

theorem decodeSegs_ok_shape (segs : List (List Nat))
    (vs : List (List Nat × List Nat)) (h : decodeSegs segs = .ok vs)
    (hseg : ∀ s ∈ segs, (0 : Nat) ∉ s) :
    ∀ kv ∈ vs, (∀ b ∈ kv.1, b ≠ 61 ∧ b ≠ 0) ∧ (∀ b ∈ kv.2, b ≠ 0) := by
  induction segs generalizing vs with
  | nil =>
    unfold decodeSegs at h
    injection h with h'
    subst h'
    intro kv hkv
    simp at hkv
  | cons s rest ih =>
    unfold decodeSegs at h
    cases hkv : splitKV s with
    | error e => rw [hkv] at h; simp at h
    | ok kv0 =>
      rw [hkv] at h
      cases hrest : decodeSegs rest with
      | error e => rw [hrest] at h; simp at h
      | ok kvs =>
        rw [hrest] at h
        injection h with h'
        subst h'
        have hs0 : (0 : Nat) ∉ s := hseg s (List.mem_cons_self s rest)
        obtain ⟨hdec, hnot61⟩ := splitKV_ok_decomp s kv0.1 kv0.2 (by rw [hkv])
        intro kv hkvmem
        rcases List.mem_cons.mp hkvmem with rfl | hmem
        · constructor
          · intro b hb
            refine ⟨fun hb61 => hnot61 (hb61 ▸ hb), fun hb0 => hs0 ?_⟩
            rw [hdec]
            exact List.mem_append.mpr (Or.inl (hb0 ▸ hb))
          · intro b hb hb0
            apply hs0
            rw [hdec]
            exact List.mem_append.mpr (Or.inr (List.mem_cons_of_mem _ (hb0 ▸ hb)))
        · exact ih kvs hrest (fun u hu => hseg u (List.mem_cons_of_mem s hu)) kv hmem

theorem decodeVars_no_badcrc (p : List Nat) :
    decodeVars p ≠ .error .BadCrc := by
  intro h
  obtain ⟨t, he, _⟩ := decodeSegs_err_shape _ _ h
  cases he

/-! ## Read lemmas over concrete block fixtures -/

theorem read_block_err_io (fs : FS) (path : List Char) (offset size : Nat)
    (e : FwError) (h : FwEnv.read_block fs path offset size = .err e) :
    e = .Io := by
  unfold FwEnv.read_block at h
  split at h
  · injection h with h'
    exact h'.symm
  · split at h
    · exact RResult.noConfusion h
    · injection h with h'
      exact h'.symm

theorem read_block_no_panic (fs : FS) (path : List Char) (offset size : Nat)
    (h : FwEnv.read_block fs path offset size = .panicked) : False := by
  unfold FwEnv.read_block at h
  split at h
  · exact RResult.noConfusion h
  · split at h <;> exact RResult.noConfusion h

theorem read_block_ok_shape (fs : FS) (path : List Char) (offset size : Nat)
    (block : List Nat) (h : FwEnv.read_block fs path offset size = .ok block) :
    block.length = size := by
  unfold FwEnv.read_block at h
  split at h
  · exact RResult.noConfusion h
  · split at h
    · injection h with h'
      rw [← h']
      simp only [List.length_take, List.length_drop]
      omega
    · exact RResult.noConfusion h

theorem read_block_of_some (fs : FS) (path : List Char) (offset size : Nat)
    (data : List Nat) (hf : fs path = some data)
    (hle : offset + size ≤ data.length) :
    FwEnv.read_block fs path offset size = .ok ((data.drop offset).take size) := by
  unfold FwEnv.read_block
  simp only [hf]
  rw [if_pos hle]

theorem read_eq_readFrom (config : Config) (fs : FS) (block : List Nat)
    (h : FwEnv.read_block fs config.line1.devname config.line1.start
      config.line1.size = .ok block) :
    FwEnv.read config fs = FwEnv.readFrom block config.is_redundant := by
  unfold FwEnv.read
  rw [h]

theorem read_eq_err (config : Config) (fs : FS) (e : FwError)
    (h : FwEnv.read_block fs config.line1.devname config.line1.start
      config.line1.size = .err e) :
    FwEnv.read config fs = .err e := by
  unfold FwEnv.read
  rw [h]

theorem length_mkBlock (p : List Nat) : (mkBlock p).length = 4 + p.length := by
  simp [mkBlock, le4]
  omega

theorem readFrom_false (block : List Nat) :
    FwEnv.readFrom block false =
      if block.length < 4 then .panicked
      else if block.length < 4 then .panicked
      else if crc32 (block.drop 4) = refcrc4 block then
        match decodeVars (block.drop 4) with
        | .error e => .err e
        | .ok vs => .ok ⟨vs⟩
      else .err .BadCrc := rfl

theorem readFrom_true (block : List Nat) :
    FwEnv.readFrom block true =
      if block.length < 4 then .panicked
      else if block.length < 5 then .panicked
      else if crc32 (block.drop 5) = refcrc4 block then
        match decodeVars (block.drop 5) with
        | .error e => .err e
        | .ok vs => .ok ⟨vs⟩
      else .err .BadCrc := rfl

theorem refcrc4_le4_append (c : Nat) (h : c < 4294967296) (p : List Nat) :
    refcrc4 (le4 c ++ p) = c := by
  simp only [refcrc4, le4, List.cons_append, List.nil_append,
    List.getD_cons_zero, List.getD_cons_succ]
  omega

theorem drop4_le4_append (c : Nat) (p : List Nat) :
    (le4 c ++ p).drop 4 = p := by
  simp [le4]

theorem readFrom_mkBlock (p : List Nat) (hc : crc32 p < 4294967296) :
    FwEnv.readFrom (mkBlock p) false = rlift (decodeVars p) := by
  have hlen : (mkBlock p).length = 4 + p.length := length_mkBlock p
  rw [readFrom_false, if_neg (by omega), if_neg (by omega),
    show (mkBlock p).drop 4 = p from drop4_le4_append _ p,
    show refcrc4 (mkBlock p) = crc32 p from refcrc4_le4_append _ hc p,
    if_pos rfl]
  cases hd : decodeVars p <;> simp [rlift, hd]

theorem bytes_lt_32 (p : List Nat) (hp : ∀ b ∈ p, b < 256) :
    ∀ b ∈ p, b < 4294967296 :=
  fun b hb => lt_of_lt_of_le (hp b hb) (by norm_num)

theorem read_block_mk (p : List Nat) :
    FwEnv.read_block (mkFs p) (mkCfg p).line1.devname (mkCfg p).line1.start
      (mkCfg p).line1.size = .ok (mkBlock p) := by
  show FwEnv.read_block (mkFs p) devD 0 (mkBlock p).length = .ok (mkBlock p)
  unfold FwEnv.read_block mkFs
  rw [if_pos rfl]
  simp

theorem read_wellformed (p : List Nat) (hp : ∀ b ∈ p, b < 256) :
    FwEnv.read (mkCfg p) (mkFs p) = rlift (decodeVars p) := by
  rw [read_eq_readFrom _ _ _ (read_block_mk p)]
  show FwEnv.readFrom (mkBlock p) false = _
  exact readFrom_mkBlock p (crc32_lt p (bytes_lt_32 p hp))

theorem read_flip (p : List Nat) (hp : ∀ b ∈ p, b < 256) (i k : Nat)
    (hi : i < p.length) (hk : k < 8) :
    FwEnv.read (mkCfg p) (mkFsFlip p i k) = .err .BadCrc := by
  have hc : crc32 p < 4294967296 := crc32_lt p (bytes_lt_32 p hp)
  have hlenf : (flipAt p i k).length = p.length := by
    simp [flipAt]
  have hlen : (mkBlockFlip p i k).length = 4 + p.length := by
    simp [mkBlockFlip, le4, hlenf]
    omega
  have hsame : (mkBlockFlip p i k).length = (mkBlock p).length := by
    rw [hlen, length_mkBlock]
  have hblock : FwEnv.read_block (mkFsFlip p i k) (mkCfg p).line1.devname
      (mkCfg p).line1.start (mkCfg p).line1.size = .ok (mkBlockFlip p i k) := by
    show FwEnv.read_block (mkFsFlip p i k) devD 0 (mkBlock p).length = _
    have hf : mkFsFlip p i k devD = some (mkBlockFlip p i k) := by
      unfold mkFsFlip
      rw [if_pos rfl]
    rw [read_block_of_some _ _ _ _ _ hf (by omega), List.drop_zero, ← hsame,
      List.take_length]
  rw [read_eq_readFrom _ _ _ hblock]
  show FwEnv.readFrom (mkBlockFlip p i k) false = _
  rw [readFrom_false, if_neg (by omega), if_neg (by omega),
    show (mkBlockFlip p i k).drop 4 = flipAt p i k from drop4_le4_append _ _,
    show refcrc4 (mkBlockFlip p i k) = crc32 p from refcrc4_le4_append _ hc _,
    if_neg (crc32_flipAt_ne p i k hi hk)]

theorem readFrom_ok_shape (block : List Nat) (red : Bool) (env : FwEnv)
    (h : FwEnv.readFrom block red = .ok env) :
    ∃ p, decodeVars p = .ok env.vars := by
  cases red with
  | false =>
    rw [readFrom_false] at h
    split at h
    · exact RResult.noConfusion h
    split at h
    · split at h
      · exact RResult.noConfusion h
      next vs heq =>
        injection h with h'
        subst h'
        exact ⟨_, heq⟩
    · exact RResult.noConfusion h
  | true =>
    rw [readFrom_true] at h
    split at h
    · exact RResult.noConfusion h
    split at h
    · exact RResult.noConfusion h
    split at h
    · split at h
      · exact RResult.noConfusion h
      next vs heq =>
        injection h with h'
        subst h'
        exact ⟨_, heq⟩
    · exact RResult.noConfusion h

theorem read_ok_shape (config : Config) (fs : FS) (env : FwEnv)
    (h : FwEnv.read config fs = .ok env) :
    ∃ p, decodeVars p = .ok env.vars := by
  unfold FwEnv.read at h
  split at h
  · exact RResult.noConfusion h
  · exact RResult.noConfusion h
  · exact readFrom_ok_shape _ _ _ h

theorem readFrom_panics_of_short (block : List Nat) (red : Bool)
    (h : block.length < (if red then ENV_REDUNDANT_SIZE else ENV_SIMPLE_SIZE)) :
    FwEnv.readFrom block red = .panicked := by
  cases red with
  | false =>
    rw [readFrom_false, if_pos (by simpa [ENV_SIMPLE_SIZE] using h)]
  | true =>
    rw [readFrom_true]
    have h5 : block.length < 5 := by simpa [ENV_REDUNDANT_SIZE] using h
    by_cases h4 : block.length < 4
    · rw [if_pos h4]
    · rw [if_neg h4, if_pos h5]

theorem mem_joinNul (L : List (List Nat)) (b : Nat) (hb : b ∈ joinNul L) :
    b = 0 ∨ ∃ s ∈ L, b ∈ s := by
  induction L with
  | nil => simp [joinNul] at hb
  | cons s t ih =>
    unfold joinNul at hb
    rcases List.mem_append.mp hb with h | h
    · exact Or.inr ⟨s, List.mem_cons_self s t, h⟩
    · rcases List.mem_cons.mp h with h0 | h0
      · exact Or.inl h0
      · rcases ih h0 with h1 | ⟨u, hu, hbu⟩
        · exact Or.inl h1
        · exact Or.inr ⟨u, List.mem_cons_of_mem s hu, hbu⟩

/-! ## The claims -/

/-- C1 (corrected): for every payload P (of bytes) the block
`le4 (crc32 P) ++ P` passes the checksum gate — `FwEnv::read` never
fails with `BadCrc` on it and its outcome is exactly the outcome of
decoding P — and flipping any single bit of P makes `FwEnv::read` fail
with `BadCrc`.  (The original claim that such a read always *succeeds*
is refuted by `claim1_counterexample`: a checksum-valid payload can
still be rejected as a malformed variable.) -/
theorem claim1_checksum_gate (P : List Nat) (h : ∀ b ∈ P, b < 256) :
    FwEnv.read (mkCfg P) (mkFs P) = rlift (decodeVars P)
    ∧ FwEnv.read (mkCfg P) (mkFs P) ≠ .err .BadCrc
    ∧ ∀ i k, i < P.length → k < 8 →
        FwEnv.read (mkCfg P) (mkFsFlip P i k) = .err .BadCrc := by
  refine ⟨read_wellformed P h, ?_, fun i k hi hk => read_flip P h i k hi hk⟩
  rw [read_wellformed P h]
  intro hbad
  apply decodeVars_no_badcrc P
  cases hd : decodeVars P with
  | error e =>
    rw [hd] at hbad
    injection hbad with h'
    rw [h']
  | ok vs =>
    rw [hd] at hbad
    exact RResult.noConfusion hbad

/-- Witness for C1 at the payload `a=1\x00\x00`, flipping bit 0 of
byte 0. -/
theorem claim1_checksum_gate_witness :
    FwEnv.read (mkCfg [97, 61, 49, 0, 0]) (mkFsFlip [97, 61, 49, 0, 0] 0 0)
      = .err .BadCrc :=
  (claim1_checksum_gate [97, 61, 49, 0, 0] (by decide)).2.2 0 0 (by decide)
    (by decide)

/-- Counterexample to C1 as stated: the payload `A` (no `=` byte) with a
correct checksum does not decode successfully; `FwEnv::read` returns the
malformed-variable error, not a store. -/
theorem claim1_counterexample :
    FwEnv.read (mkCfg [65]) (mkFs [65]) = .err (.EnvVarSyntax [65]) := by
  decide

/-- C3 (corrected): in every successfully constructed store, no key
contains `=` or a null byte and no value contains a null byte.  (The
original claim that keys are non-empty is refuted by
`claim3_counterexample`.) -/
theorem claim3_store_invariant (config : Config) (fs : FS) (env : FwEnv)
    (h : FwEnv.read config fs = .ok env) :
    ∀ kv ∈ env.vars, (∀ b ∈ kv.1, b ≠ 61 ∧ b ≠ 0) ∧ (∀ b ∈ kv.2, b ≠ 0) := by
  obtain ⟨p, hp⟩ := read_ok_shape config fs env h
  refine decodeSegs_ok_shape _ _ hp ?_
  intro s hs
  exact mem_splitSep_not_sep 0 p s (List.takeWhile_subset _ hs)

/-- Witness for C3: the key byte of the store decoded from `a=1\x00\x00`
is neither `=` nor null. -/
theorem claim3_store_invariant_witness : (97 : Nat) ≠ 61 ∧ (97 : Nat) ≠ 0 :=
  (claim3_store_invariant (mkCfg [97, 61, 49, 0, 0]) (mkFs [97, 61, 49, 0, 0])
    ⟨[([97], [49])]⟩ (by decide) ([97], [49]) (by decide)).1 97 (by decide)

/-- Counterexample to C3 as stated: the checksum-valid payload `=v\x00`
decodes into a store whose single entry has an *empty* key, refuting the
claim that every key is non-empty. -/
theorem claim3_counterexample :
    FwEnv.read (mkCfg [61, 118, 0]) (mkFs [61, 118, 0])
      = .ok ⟨[([], [118])]⟩ := by
  decide

/-- C4 (corrected): when the declared size of the primary region is
smaller than the header size (4 bytes plain, 5 bytes redundant),
`FwEnv::read` either fails with the io error (the device cannot supply
the bytes) or *panics* on an out-of-bounds index; it never reaches the
CRC comparison and never returns a store.  (The original claim that it
always fails with an I/O error and never panics is refuted by
`claim4_counterexample`.) -/
theorem claim4_short_header (config : Config) (fs : FS)
    (hsz : config.line1.size <
      (if config.is_redundant then ENV_REDUNDANT_SIZE else ENV_SIMPLE_SIZE)) :
    FwEnv.read config fs = .err .Io ∨ FwEnv.read config fs = .panicked := by
  cases hb : FwEnv.read_block fs config.line1.devname config.line1.start
      config.line1.size with
  | err e =>
    left
    rw [read_eq_err config fs e hb, read_block_err_io _ _ _ _ _ hb]
  | panicked => exact absurd hb (fun hh => read_block_no_panic _ _ _ _ hh)
  | ok block =>
    right
    rw [read_eq_readFrom config fs block hb]
    have hlen : block.length = config.line1.size :=
      read_block_ok_shape _ _ _ _ _ hb
    exact readFrom_panics_of_short _ _ (by rw [hlen]; exact hsz)

/-- Witness for C4 on a size-2 region over a missing device. -/
theorem claim4_short_header_witness :
    FwEnv.read ⟨⟨['d'], 0, 2⟩, none⟩ (fun _ => none) = .err .Io
    ∨ FwEnv.read ⟨⟨['d'], 0, 2⟩, none⟩ (fun _ => none) = .panicked :=
  claim4_short_header _ _ (by decide)

/-- Counterexample to C4 as stated: with a size-2 region on a device
that does hold 2 bytes, `FwEnv::read` panics (indexing `block[2]`)
instead of failing with an I/O error. -/
theorem claim4_counterexample :
    FwEnv.read ⟨⟨['d'], 0, 2⟩, none⟩
      (fun path => if path = ['d'] then some [7, 7] else none) = .panicked := by
  decide

/-- C5 (confirmed): decoding splits the payload on null bytes and stops
at (and excludes) the first empty segment: whatever bytes `z` follow the
empty terminator segment — including well-formed non-empty records —
the outcome of `FwEnv::read` is exactly the decoding of the segments
before it; and a payload whose first segment is already empty yields the
store with zero entries, not an error — both for a payload starting
with a null byte and for the fully empty payload (a header-only
block). -/
theorem claim5_framing (L : List (List Nat)) (z : List Nat)
    (hL : ∀ s ∈ L, s ≠ [] ∧ ∀ b ∈ s, b ≠ 0 ∧ b < 256)
    (hz : ∀ b ∈ z, b < 256) :
    FwEnv.read (mkCfg (joinNul L ++ 0 :: z)) (mkFs (joinNul L ++ 0 :: z))
      = rlift (decodeSegs L)
    ∧ FwEnv.read (mkCfg (0 :: z)) (mkFs (0 :: z)) = .ok ⟨[]⟩
    ∧ FwEnv.read (mkCfg []) (mkFs []) = .ok ⟨[]⟩ := by
  refine ⟨?_, ?_, by decide⟩
  · have hbytes : ∀ b ∈ joinNul L ++ 0 :: z, b < 256 := by
      intro b hb
      rcases List.mem_append.mp hb with h | h
      · rcases mem_joinNul L b h with h0 | ⟨s, hs, hbs⟩
        · omega
        · exact ((hL s hs).2 b hbs).2
      · rcases List.mem_cons.mp h with h0 | h0
        · omega
        · exact hz b h0
    rw [read_wellformed _ hbytes]
    unfold decodeVars
    rw [segsOf_joinNul_term L
      (fun s hs => ⟨(hL s hs).1, fun hb0 => ((hL s hs).2 0 hb0).1 rfl⟩) z]
  · have hbytes : ∀ b ∈ (0 : Nat) :: z, b < 256 := by
      intro b hb
      rcases List.mem_cons.mp hb with h0 | h0
      · omega
      · exact hz b h0
    rw [read_wellformed _ hbytes]
    show rlift (decodeVars (0 :: z)) = .ok ⟨[]⟩
    unfold decodeVars segsOf
    rw [show splitSep (0 : Nat) (0 :: z) = [] :: splitSep 0 z by
        rw [splitSep, if_pos rfl],
      List.takeWhile_cons_of_neg (by simp)]
    rfl

/-- Witness for C5: one record `a=1`, then the terminator, then the
non-empty well-formed junk `x=y` which is never decoded. -/
theorem claim5_framing_witness :
    FwEnv.read (mkCfg (joinNul [[97, 61, 49]] ++ 0 :: [120, 61, 121]))
        (mkFs (joinNul [[97, 61, 49]] ++ 0 :: [120, 61, 121]))
      = rlift (decodeSegs [[97, 61, 49]])
    ∧ FwEnv.read (mkCfg (0 :: [120, 61, 121])) (mkFs (0 :: [120, 61, 121]))
      = .ok ⟨[]⟩
    ∧ FwEnv.read (mkCfg []) (mkFs []) = .ok ⟨[]⟩ :=
  claim5_framing [[97, 61, 49]] [120, 61, 121] (by decide) (by decide)

/-- C6 (confirmed): if some segment before the terminator has no `=`
byte, `FwEnv::read` fails with the malformed-variable error carrying an
`=`-free segment and never returns a store; and on a segment whose
first `=` is at index `i`, the key is everything before `i` and the
value everything after. -/
theorem claim6_malformed (p : List Nat) (hp : ∀ b ∈ p, b < 256) :
    ((∃ s ∈ segsOf p, ∀ b ∈ s, b ≠ 61) →
      (∃ t, (∀ b ∈ t, b ≠ 61)
        ∧ FwEnv.read (mkCfg p) (mkFs p) = .err (.EnvVarSyntax t))
      ∧ ∀ env, FwEnv.read (mkCfg p) (mkFs p) ≠ .ok env)
    ∧ ∀ s i, i < s.length → s.getD i 0 = 61 → (∀ j, j < i → s.getD j 0 ≠ 61) →
      splitKV s = .ok (s.take i, s.drop (i + 1)) := by
  constructor
  · intro hbad
    obtain ⟨t, hdec, ht⟩ := decodeSegs_err_of_bad _ hbad
    have hread : FwEnv.read (mkCfg p) (mkFs p) = .err (.EnvVarSyntax t) := by
      rw [read_wellformed p hp]
      unfold decodeVars
      rw [hdec]
      rfl
    refine ⟨⟨t, ht, hread⟩, fun env hok => ?_⟩
    rw [hread] at hok
    exact RResult.noConfusion hok
  · exact fun s i hi hg hb => splitKV_first s i hi hg hb

/-- Witness for C6: the segment `a=1` splits at its first `=`. -/
theorem claim6_malformed_witness : splitKV [97, 61, 49] = .ok ([97], [49]) :=
  (claim6_malformed [] (by decide)).2 [97, 61, 49] 1 (by decide) (by decide)
    (fun j hj => by
      have hj0 : j = 0 := by omega
      subst hj0
      decide)

/-- C7 (confirmed): `find_var` returns the value of the first entry (in
stored order) whose key equals the name byte-for-byte, and `none`
exactly when no key matches; in particular the duplicate-key payload
`a=1\x00a=2\x00\x00` decodes with both entries retained and
`find_var "a"` returns `1`. -/
theorem claim7_find_first (env : FwEnv) (name : List Nat) :
    (∀ v, FwEnv.find_var env name = some v →
      ∃ pre suf, env.vars = pre ++ (name, v) :: suf
        ∧ ∀ kv ∈ pre, kv.1 ≠ name)
    ∧ (FwEnv.find_var env name = none ↔ ∀ kv ∈ env.vars, kv.1 ≠ name)
    ∧ FwEnv.read (mkCfg [97, 61, 49, 0, 97, 61, 50, 0, 0])
        (mkFs [97, 61, 49, 0, 97, 61, 50, 0, 0])
      = .ok ⟨[([97], [49]), ([97], [50])]⟩
    ∧ FwEnv.find_var ⟨[([97], [49]), ([97], [50])]⟩ [97] = some [49] := by
  refine ⟨?_, ?_, by decide, by decide⟩
  · intro v hv
    unfold FwEnv.find_var at hv
    rw [Option.map_eq_some'] at hv
    obtain ⟨kv, hfind, hkv2⟩ := hv
    rw [List.find?_eq_some] at hfind
    obtain ⟨hp, pre, suf, hdec, hpre⟩ := hfind
    obtain ⟨k1, v1⟩ := kv
    have hk1 : k1 = name := by simpa using hp
    refine ⟨pre, suf, ?_, ?_⟩
    · rw [hdec, hk1]
      simp at hkv2
      rw [hkv2]
    · intro kv' hkv'
      have := hpre kv' hkv'
      simpa using this
  · unfold FwEnv.find_var
    rw [Option.map_eq_none', List.find?_eq_none]
    constructor
    · intro hn kv hkv
      simpa using hn kv hkv
    · intro hn kv hkv
      simpa using hn kv hkv

/-- Witness for C7: the duplicate-key read from the claim. -/
theorem claim7_find_first_witness :
    FwEnv.read (mkCfg [97, 61, 49, 0, 97, 61, 50, 0, 0])
        (mkFs [97, 61, 49, 0, 97, 61, 50, 0, 0])
      = .ok ⟨[([97], [49]), ([97], [50])]⟩ :=
  (claim7_find_first ⟨[]⟩ []).2.2.1

/-- C8 (confirmed): given a device able to supply the configured block
and a size at least the header size, `FwEnv::read` skips exactly 5
header bytes when the layout is redundant and exactly 4 otherwise, and
compares the reference checksum against the CRC-32 of all block bytes
after the skipped header through the end of the block, decoding on
success and failing with `BadCrc` otherwise. -/
theorem claim8_header_skip (config : Config) (fs : FS) (data : List Nat)
    (hf : fs config.line1.devname = some data)
    (hle : config.line1.start + config.line1.size ≤ data.length)
    (hsz : (if config.is_redundant then ENV_REDUNDANT_SIZE else ENV_SIMPLE_SIZE)
      ≤ config.line1.size) :
    FwEnv.read config fs =
      (if crc32 (((data.drop config.line1.start).take config.line1.size).drop
            (if config.is_redundant then 5 else 4))
          = refcrc4 ((data.drop config.line1.start).take config.line1.size)
        then rlift (decodeVars
          (((data.drop config.line1.start).take config.line1.size).drop
            (if config.is_redundant then 5 else 4)))
        else .err .BadCrc) := by
  have hb := read_block_of_some fs config.line1.devname config.line1.start
    config.line1.size data hf hle
  rw [read_eq_readFrom config fs _ hb]
  have hlen : ((data.drop config.line1.start).take config.line1.size).length
      = config.line1.size := by
    simp only [List.length_take, List.length_drop]
    omega
  cases hred : config.is_redundant with
  | false =>
    rw [hred] at hsz
    have hsz4 : 4 ≤ config.line1.size := by
      simpa [ENV_SIMPLE_SIZE] using hsz
    rw [readFrom_false, if_neg (by omega), if_neg (by omega)]
    rfl
  | true =>
    rw [hred] at hsz
    have hsz5 : 5 ≤ config.line1.size := by
      simpa [ENV_REDUNDANT_SIZE] using hsz
    rw [readFrom_true, if_neg (by omega), if_neg (by omega)]
    rfl

/-- Witness for C8 on a redundant layout: a 6-byte block consisting of
the checksum of `[0]`, a flag byte, and the empty-environment payload
`[0]`; the skip is 5 bytes. -/
theorem claim8_header_skip_witness :
    FwEnv.read ⟨⟨['d'], 0, 6⟩, some ⟨['e'], 0, 6⟩⟩
        (fun path => if path = ['d']
          then some (le4 (crc32 [0]) ++ [1, 0]) else none)
      = (if crc32 ((((le4 (crc32 [0]) ++ [1, 0]).drop 0).take 6).drop 5)
            = refcrc4 (((le4 (crc32 [0]) ++ [1, 0]).drop 0).take 6)
          then rlift (decodeVars
            ((((le4 (crc32 [0]) ++ [1, 0]).drop 0).take 6).drop 5))
          else .err .BadCrc) :=
  claim8_header_skip _ _ _ (by decide) (by decide) (by decide)

/-! ## Descriptor line parsing lemmas -/

theorem takeWhile_all_append {α : Type} (p : α → Bool) (l : List α)
    (hl : ∀ a ∈ l, p a = true) (c : α) (hc : p c = false) (r : List α) :
    (l ++ c :: r).takeWhile p = l := by
  induction l with
  | nil =>
    rw [List.nil_append, List.takeWhile_cons_of_neg (by simp [hc])]
  | cons a t ih =>
    rw [List.cons_append,
      List.takeWhile_cons_of_pos (hl a (List.mem_cons_self a t)),
      ih (fun x hx => hl x (List.mem_cons_of_mem a hx))]

theorem dropWhile_all_append {α : Type} (p : α → Bool) (l : List α)
    (hl : ∀ a ∈ l, p a = true) (c : α) (hc : p c = false) (r : List α) :
    (l ++ c :: r).dropWhile p = c :: r := by
  induction l with
  | nil =>
    rw [List.nil_append, List.dropWhile_cons_of_neg (by simp [hc])]
  | cons a t ih =>
    rw [List.cons_append,
      List.dropWhile_cons_of_pos (hl a (List.mem_cons_self a t)),
      ih (fun x hx => hl x (List.mem_cons_of_mem a hx))]

theorem takeWhile_all {α : Type} (p : α → Bool) (l : List α)
    (hl : ∀ a ∈ l, p a = true) : l.takeWhile p = l := by
  induction l with
  | nil => rfl
  | cons a t ih =>
    rw [List.takeWhile_cons_of_pos (hl a (List.mem_cons_self a t)),
      ih (fun x hx => hl x (List.mem_cons_of_mem a hx))]

theorem radix16_ok (h : List Char) (hne : h ≠ [])
    (hhex : ∀ c ∈ h, isHexDigitChar c = true) (hlt : hexVal h < USIZE_BOUND) :
    from_str_radix_16 h = .ok (hexVal h) := by
  unfold from_str_radix_16
  rw [if_neg (by simpa using hne), if_pos (by rw [List.all_eq_true]; exact hhex),
    if_pos hlt]

theorem radix16_overflow (h : List Char) (hne : h ≠ [])
    (hhex : ∀ c ∈ h, isHexDigitChar c = true) (hge : USIZE_BOUND ≤ hexVal h) :
    from_str_radix_16 h = .error .ParseInt := by
  unfold from_str_radix_16
  rw [if_neg (by simpa using hne), if_pos (by rw [List.all_eq_true]; exact hhex),
    if_neg (by omega)]

theorem from_str_descLine (d h1 h2 : List Char) (hd : d ≠ [])
    (hdw : ∀ c ∈ d, notWs c = true)
    (h1ne : h1 ≠ []) (h1hex : ∀ c ∈ h1, isHexDigitChar c = true)
    (h2ne : h2 ≠ []) (h2hex : ∀ c ∈ h2, isHexDigitChar c = true) :
    ConfigLine.from_str (descLine d h1 h2) =
      (match from_str_radix_16 h1 with
       | .error e => .error e
       | .ok st =>
         match from_str_radix_16 h2 with
         | .error e => .error e
         | .ok sz => .ok ⟨d, st, sz⟩) := by
  have htake : (descLine d h1 h2).takeWhile notWs = d := by
    unfold descLine
    exact takeWhile_all_append notWs d hdw ' ' (by decide) _
  have hde : d.isEmpty = false := by simpa using hd
  have hdrop : ((descLine d h1 h2).dropWhile notWs).dropWhile
      (fun c => c.isWhitespace) = '0' :: 'x' :: (h1 ++ ' ' :: '0' :: 'x' :: h2) := by
    unfold descLine
    rw [dropWhile_all_append notWs d hdw ' ' (by decide) _,
      List.dropWhile_cons_of_pos (by decide),
      List.dropWhile_cons_of_neg (by decide)]
  have h1take : (h1 ++ ' ' :: '0' :: 'x' :: h2).takeWhile isHexDigitChar = h1 :=
    takeWhile_all_append _ h1 h1hex ' ' (by decide) _
  have h1de : h1.isEmpty = false := by simpa using h1ne
  have h1drop : ((h1 ++ ' ' :: '0' :: 'x' :: h2).dropWhile
      isHexDigitChar).dropWhile (fun c => c.isWhitespace) = '0' :: 'x' :: h2 := by
    rw [dropWhile_all_append _ h1 h1hex ' ' (by decide) _,
      List.dropWhile_cons_of_pos (by decide),
      List.dropWhile_cons_of_neg (by decide)]
  have h2take : h2.takeWhile isHexDigitChar = h2 := takeWhile_all _ h2 h2hex
  have h2de : h2.isEmpty = false := by simpa using h2ne
  simp only [ConfigLine.from_str, htake, hde, hdrop, h1take, h1de, h1drop,
    h2take, h2de, Bool.false_eq_true, if_false]

theorem lineOk_descLine (d h1 h2 : List Char) (hd : d ≠ [])
    (hhash : d.getD 0 ' ' ≠ '#') : lineOk (descLine d h1 h2) = true := by
  cases d with
  | nil => exact absurd rfl hd
  | cons c t =>
    show lineOk (c :: (t ++ ' ' :: '0' :: 'x' :: (h1 ++ ' ' :: '0' :: 'x' :: h2)))
      = true
    simp only [lineOk, bne_iff_ne, ne_eq]
    simpa using hhash

theorem newline_not_mem_descLine (d h1 h2 : List Char)
    (hdw : ∀ c ∈ d, notWs c = true)
    (h1hex : ∀ c ∈ h1, isHexDigitChar c = true)
    (h2hex : ∀ c ∈ h2, isHexDigitChar c = true) :
    '\n' ∉ descLine d h1 h2 := by
  intro hmem
  unfold descLine at hmem
  simp only [List.mem_append, List.mem_cons] at hmem
  rcases hmem with h | h | h | h | h | h | h | h | h
  · exact absurd (hdw _ h) (by decide)
  · exact absurd h (by decide)
  · exact absurd h (by decide)
  · exact absurd h (by decide)
  · exact absurd (h1hex _ h) (by decide)
  · exact absurd h (by decide)
  · exact absurd h (by decide)
  · exact absurd h (by decide)
  · exact absurd (h2hex _ h) (by decide)

theorem qualifyingLines_two (l1 l2 : List Char) (h1 : lineOk l1 = true)
    (h2 : lineOk l2 = true) (hn1 : '\n' ∉ l1) (hn2 : '\n' ∉ l2) :
    qualifyingLines (l1 ++ '\n' :: l2) = [l1, l2] := by
  unfold qualifyingLines
  rw [splitSep_append_cons '\n' l1 hn1, splitSep_no_sep '\n' l2 hn2,
    List.filter_cons_of_pos h1, List.filter_cons_of_pos h2]
  rfl

theorem qualifyingLines_one (l1 : List Char) (h1 : lineOk l1 = true)
    (hn1 : '\n' ∉ l1) : qualifyingLines l1 = [l1] := by
  unfold qualifyingLines
  rw [splitSep_no_sep '\n' l1 hn1, List.filter_cons_of_pos h1]
  rfl

/-- C2 (corrected): a source with 0 qualifying lines fails with the
wrong-descriptor-count error carrying 0; but a source with two or more
qualifying lines is decided by its first two lines alone — extra lines
beyond 2 are silently dropped by the `take(2)` that runs before the
count is taken, so such a source can never fail with a
wrong-descriptor-count error.  (The original claim that more than 2
qualifying lines fail with the observed count is refuted by
`claim2_counterexample`.) -/
theorem claim2_descriptor_count (content : List Char) :
    (qualifyingLines content = [] →
      Config.fromContent content = .error (.WrongDevNum 0))
    ∧ ∀ l1 l2 rest, qualifyingLines content = l1 :: l2 :: rest →
      Config.fromContent content =
        (match ConfigLine.from_str l1 with
         | .error e => .error e
         | .ok c1 =>
           match ConfigLine.from_str l2 with
           | .error e => .error e
           | .ok c2 => .ok ⟨c1, some c2⟩) := by
  constructor
  · intro h0
    unfold Config.fromContent
    rw [h0]
    rfl
  · intro l1 l2 rest hq
    unfold Config.fromContent
    rw [hq, show List.take 2 (l1 :: l2 :: rest) = [l1, l2] from rfl]
    cases hc1 : ConfigLine.from_str l1 with
    | error e => simp [parseLines, hc1]
    | ok c1 =>
      cases hc2 : ConfigLine.from_str l2 with
      | error e => simp [parseLines, hc1, hc2]
      | ok c2 => simp [parseLines, hc1, hc2]

/-- Witness for C2 on the empty source: 0 qualifying lines give the
wrong-descriptor-count failure with count 0. -/
theorem claim2_descriptor_count_witness :
    Config.fromContent [] = .error (.WrongDevNum 0) :=
  (claim2_descriptor_count []).1 (by decide)

/-- Counterexample to C2 as stated: a source with 3 qualifying valid
lines is accepted (truncated to the first two), instead of failing with
a wrong-descriptor-count error carrying 3. -/
theorem claim2_counterexample :
    qualifyingLines ['d', ' ', '0', 'x', '1', ' ', '0', 'x', '2', '\n',
        'e', ' ', '0', 'x', '3', ' ', '0', 'x', '4', '\n',
        'f', ' ', '0', 'x', '5', ' ', '0', 'x', '6'] =
      [['d', ' ', '0', 'x', '1', ' ', '0', 'x', '2'],
       ['e', ' ', '0', 'x', '3', ' ', '0', 'x', '4'],
       ['f', ' ', '0', 'x', '5', ' ', '0', 'x', '6']]
    ∧ Config.fromContent ['d', ' ', '0', 'x', '1', ' ', '0', 'x', '2', '\n',
        'e', ' ', '0', 'x', '3', ' ', '0', 'x', '4', '\n',
        'f', ' ', '0', 'x', '5', ' ', '0', 'x', '6'] =
      .ok ⟨⟨['d'], 1, 2⟩, some ⟨['e'], 3, 4⟩⟩ := by
  constructor
  · decide
  · decide

/-- C9 (confirmed): a two-line source of valid descriptor lines parses
into the redundant layout whose primary carries the first line's device
token and base-16 offset and size, and whose backup carries the second
line's; a one-line source parses into that descriptor as primary with no
backup and `is_redundant` false. -/
theorem claim9_layout_roundtrip (d1 h1 h2 d2 h3 h4 : List Char)
    (hd1 : d1 ≠ []) (hd1w : ∀ c ∈ d1, notWs c = true)
    (hd1h : d1.getD 0 ' ' ≠ '#')
    (hd2 : d2 ≠ []) (hd2w : ∀ c ∈ d2, notWs c = true)
    (hd2h : d2.getD 0 ' ' ≠ '#')
    (h1ne : h1 ≠ []) (h1hex : ∀ c ∈ h1, isHexDigitChar c = true)
    (hv1 : hexVal h1 < USIZE_BOUND)
    (h2ne : h2 ≠ []) (h2hex : ∀ c ∈ h2, isHexDigitChar c = true)
    (hv2 : hexVal h2 < USIZE_BOUND)
    (h3ne : h3 ≠ []) (h3hex : ∀ c ∈ h3, isHexDigitChar c = true)
    (hv3 : hexVal h3 < USIZE_BOUND)
    (h4ne : h4 ≠ []) (h4hex : ∀ c ∈ h4, isHexDigitChar c = true)
    (hv4 : hexVal h4 < USIZE_BOUND) :
    Config.fromContent (descLine d1 h1 h2 ++ '\n' :: descLine d2 h3 h4)
      = .ok ⟨⟨d1, hexVal h1, hexVal h2⟩, some ⟨d2, hexVal h3, hexVal h4⟩⟩
    ∧ Config.is_redundant
        ⟨⟨d1, hexVal h1, hexVal h2⟩, some ⟨d2, hexVal h3, hexVal h4⟩⟩ = true
    ∧ Config.fromContent (descLine d1 h1 h2)
      = .ok ⟨⟨d1, hexVal h1, hexVal h2⟩, none⟩
    ∧ Config.is_redundant ⟨⟨d1, hexVal h1, hexVal h2⟩, none⟩ = false := by
  have hp1 : ConfigLine.from_str (descLine d1 h1 h2)
      = .ok ⟨d1, hexVal h1, hexVal h2⟩ := by
    rw [from_str_descLine d1 h1 h2 hd1 hd1w h1ne h1hex h2ne h2hex]
    simp only [radix16_ok h1 h1ne h1hex hv1, radix16_ok h2 h2ne h2hex hv2]
  have hp2 : ConfigLine.from_str (descLine d2 h3 h4)
      = .ok ⟨d2, hexVal h3, hexVal h4⟩ := by
    rw [from_str_descLine d2 h3 h4 hd2 hd2w h3ne h3hex h4ne h4hex]
    simp only [radix16_ok h3 h3ne h3hex hv3, radix16_ok h4 h4ne h4hex hv4]
  refine ⟨?_, rfl, ?_, rfl⟩
  · unfold Config.fromContent
    rw [qualifyingLines_two _ _ (lineOk_descLine d1 h1 h2 hd1 hd1h)
      (lineOk_descLine d2 h3 h4 hd2 hd2h)
      (newline_not_mem_descLine d1 h1 h2 hd1w h1hex h2hex)
      (newline_not_mem_descLine d2 h3 h4 hd2w h3hex h4hex)]
    simp only [List.take, parseLines, hp1, hp2]
  · unfold Config.fromContent
    rw [qualifyingLines_one _ (lineOk_descLine d1 h1 h2 hd1 hd1h)
      (newline_not_mem_descLine d1 h1 h2 hd1w h1hex h2hex)]
    simp only [List.take, parseLines, hp1]

/-- Witness for C9 on the two-line source `d 0x1 0x2` / `e 0x3 0x4` and
the one-line source `d 0x1 0x2`. -/
theorem claim9_layout_roundtrip_witness :
    Config.fromContent (descLine ['d'] ['1'] ['2'] ++ '\n' ::
        descLine ['e'] ['3'] ['4'])
      = .ok ⟨⟨['d'], hexVal ['1'], hexVal ['2']⟩,
          some ⟨['e'], hexVal ['3'], hexVal ['4']⟩⟩ :=
  (claim9_layout_roundtrip ['d'] ['1'] ['2'] ['e'] ['3'] ['4']
    (by decide) (by decide) (by decide) (by decide) (by decide) (by decide)
    (by decide) (by decide) (by decide) (by decide) (by decide) (by decide)
    (by decide) (by decide) (by decide) (by decide) (by decide) (by decide)).1

/-- C10 (confirmed): a grammar-conforming descriptor line whose offset
or size hex digits denote a value past `usize::MAX` fails with the
numeric-parse error, not the scan error, and never yields a wrapped or
truncated descriptor. -/
theorem claim10_overflow (d h1 h2 : List Char)
    (hd : d ≠ []) (hdw : ∀ c ∈ d, notWs c = true)
    (h1ne : h1 ≠ []) (h1hex : ∀ c ∈ h1, isHexDigitChar c = true)
    (h2ne : h2 ≠ []) (h2hex : ∀ c ∈ h2, isHexDigitChar c = true)
    (hover : USIZE_BOUND ≤ hexVal h1 ∨ USIZE_BOUND ≤ hexVal h2) :
    ConfigLine.from_str (descLine d h1 h2) = .error .ParseInt
    ∧ ∀ cl, ConfigLine.from_str (descLine d h1 h2) ≠ .ok cl := by
  have hmain : ConfigLine.from_str (descLine d h1 h2) = .error .ParseInt := by
    rw [from_str_descLine d h1 h2 hd hdw h1ne h1hex h2ne h2hex]
    rcases hover with hov | hov
    · simp only [radix16_overflow h1 h1ne h1hex hov]
    · by_cases hlt : hexVal h1 < USIZE_BOUND
      · simp only [radix16_ok h1 h1ne h1hex hlt,
          radix16_overflow h2 h2ne h2hex hov]
      · simp only [radix16_overflow h1 h1ne h1hex (by omega)]
  refine ⟨hmain, fun cl hcl => ?_⟩
  rw [hmain] at hcl
  exact Except.noConfusion hcl

/-- Witness for C10: size field `0x10000000000000000` (17 hex digits,
equal to `usize::MAX + 1`) overflows. -/
theorem claim10_overflow_witness :
    ConfigLine.from_str (descLine ['d']
        ['1', '0', '0', '0', '0', '0', '0', '0', '0', '0', '0', '0', '0',
         '0', '0', '0', '0'] ['2']) = .error .ParseInt :=
  (claim10_overflow ['d']
    ['1', '0', '0', '0', '0', '0', '0', '0', '0', '0', '0', '0', '0',
     '0', '0', '0', '0'] ['2']
    (by decide) (by decide) (by decide) (by decide) (by decide) (by decide)
    (Or.inl (by decide))).1

end Fw

